import Mathlib

/-! Verification of the web-agent-orchestrator-api publishing core.

Shallow embedding of the GitHub-backed publishing core of the orchestrator
API (source: `src/unnamed/part_000`, two concatenated revisions of the same
server file).  The embedded parts are:

* `slugify` — source lines 186–196 (revision 1) and 669–679 (revision 2),
  identical in both revisions;
* `upsertGithubFile` — the naive revision (lines 141–184, no retry, here
  `upsertGithubFileV1`) and the retry revision (lines 748–803, a
  5-attempt loop retrying on HTTP 409, here `upsertGithubFile`);
* the `/publish-slug-github` endpoint (lines 933–983): file-list
  construction and the strictly sequential upsert loop;
* the `/patch-section-github` endpoint (lines 1107–1188): marker-delimited
  section splice of `index.html`.

Strings are modelled as lists of characters (`Str`).  JavaScript string
indices are UTF-16 code-unit based while `Str` indices are codepoint
based; all index arithmetic here is internally consistent, and the two
agree on every string of the basic multilingual plane.  Base64 transport
of file contents is modelled away: a store content field stands for the
decoded text, since encode/decode round-trips.
-/

/-- JavaScript strings, modelled as lists of characters. -/
abbrev Str := List Char

/-! The slugify helper (source lines 669–679): NFD normalize, remove the
combining diacritical marks, lowercase, trim, replace each run of
characters outside a-z0-9 with a dash, collapse runs of dashes, and drop a
leading and a trailing dash. -/

/-- Modelled: Unicode NFD decomposition of one character, restricted to the
precomposed Latin-1 letters (the only precomposed characters this system's
data carries); every other character — in particular every ASCII
character — is its own NFD decomposition. -/
def decompChar (c : Char) : Str :=
  if c.toNat < 0xC0 then [c]
  else match c with
    | 'À' => ['A', '̀'] | 'Á' => ['A', '́'] | 'Â' => ['A', '̂']
    | 'Ã' => ['A', '̃'] | 'Ä' => ['A', '̈'] | 'Å' => ['A', '̊']
    | 'Ç' => ['C', '̧']
    | 'È' => ['E', '̀'] | 'É' => ['E', '́'] | 'Ê' => ['E', '̂']
    | 'Ë' => ['E', '̈']
    | 'Ì' => ['I', '̀'] | 'Í' => ['I', '́'] | 'Î' => ['I', '̂']
    | 'Ï' => ['I', '̈']
    | 'Ñ' => ['N', '̃']
    | 'Ò' => ['O', '̀'] | 'Ó' => ['O', '́'] | 'Ô' => ['O', '̂']
    | 'Õ' => ['O', '̃'] | 'Ö' => ['O', '̈']
    | 'Ù' => ['U', '̀'] | 'Ú' => ['U', '́'] | 'Û' => ['U', '̂']
    | 'Ü' => ['U', '̈'] | 'Ý' => ['Y', '́']
    | 'à' => ['a', '̀'] | 'á' => ['a', '́'] | 'â' => ['a', '̂']
    | 'ã' => ['a', '̃'] | 'ä' => ['a', '̈'] | 'å' => ['a', '̊']
    | 'ç' => ['c', '̧']
    | 'è' => ['e', '̀'] | 'é' => ['e', '́'] | 'ê' => ['e', '̂']
    | 'ë' => ['e', '̈']
    | 'ì' => ['i', '̀'] | 'í' => ['i', '́'] | 'î' => ['i', '̂']
    | 'ï' => ['i', '̈']
    | 'ñ' => ['n', '̃']
    | 'ò' => ['o', '̀'] | 'ó' => ['o', '́'] | 'ô' => ['o', '̂']
    | 'õ' => ['o', '̃'] | 'ö' => ['o', '̈']
    | 'ù' => ['u', '̀'] | 'ú' => ['u', '́'] | 'û' => ['u', '̂']
    | 'ü' => ['u', '̈'] | 'ý' => ['y', '́'] | 'ÿ' => ['y', '̈']
    | _ => [c]

/-- The JS `.normalize("NFD")` step, character-wise. -/
def nfd (l : Str) : Str := l.flatMap decompChar

/-- A combining diacritical mark, the class removed by
`.replace(/[̀-ͯ]/g, "")`. -/
def isCombining (c : Char) : Bool :=
  decide (0x300 ≤ c.toNat) && decide (c.toNat ≤ 0x36F)

/-- The `.replace(/[̀-ͯ]/g, "")` step. -/
def stripCombining (l : Str) : Str := l.filter (fun c => !isCombining c)

/-- The JS `.toLowerCase()` on one character.  ASCII case mapping; characters the
pipeline later discards anyway (non-ASCII) are left unchanged. -/
def jsToLower (c : Char) : Char :=
  if decide (65 ≤ c.toNat) && decide (c.toNat ≤ 90) then Char.ofNat (c.toNat + 32) else c

/-- The JS `.toLowerCase()` on a string. -/
def jsToLowerStr (l : Str) : Str := l.map jsToLower

/-- The ECMAScript whitespace class removed by `.trim()`. -/
def isJsWs (c : Char) : Bool :=
  decide (c.toNat ∈ [0x9, 0xA, 0xB, 0xC, 0xD, 0x20, 0xA0, 0x1680,
              0x2000, 0x2001, 0x2002, 0x2003, 0x2004, 0x2005, 0x2006, 0x2007,
              0x2008, 0x2009, 0x200A, 0x2028, 0x2029, 0x202F, 0x205F, 0x3000, 0xFEFF])

/-- The JS `.trim()`: drop leading and trailing whitespace. -/
def jsTrim (l : Str) : Str :=
  ((l.dropWhile isJsWs).reverse.dropWhile isJsWs).reverse

/-- The character class `[a-z0-9]` of the slugify regexes. -/
def isSlugAlnum (c : Char) : Bool :=
  (decide (97 ≤ c.toNat) && decide (c.toNat ≤ 122)) ||
  (decide (48 ≤ c.toNat) && decide (c.toNat ≤ 57))

/-- The `.replace(/[^a-z0-9]+/g, "-")` step: each maximal run of characters outside
`[a-z0-9]` becomes a single dash.  The flag records whether the current
position is inside a run whose dash has already been emitted. -/
def dashifyGo : Bool → Str → Str
  | _, [] => []
  | inRun, c :: cs =>
    if isSlugAlnum c then c :: dashifyGo false cs
    else if inRun then dashifyGo true cs
    else '-' :: dashifyGo true cs

def dashify (l : Str) : Str := dashifyGo false l

/-- The dash-collapsing replace step: each maximal run of dashes becomes one dash. -/
def collapseDashesGo : Bool → Str → Str
  | _, [] => []
  | inRun, c :: cs =>
    if c = '-' then
      if inRun then collapseDashesGo true cs else '-' :: collapseDashesGo true cs
    else c :: collapseDashesGo false cs

def collapseDashes (l : Str) : Str := collapseDashesGo false l

/-- One half (`^-`) of `.replace(/^-|-$/g, "")`: remove one leading dash. -/
def dropLeadDash : Str → Str
  | [] => []
  | c :: t => if c = '-' then t else c :: t

/-- The `.replace(/^-|-$/g, "")` step: remove one leading and one trailing dash. -/
def stripEdgeDash (l : Str) : Str :=
  ((dropLeadDash l).reverse |> dropLeadDash).reverse

/-- The slugify function (source lines 669–679; identical at lines 186–196). -/
def slugify (input : Str) : Str :=
  stripEdgeDash (collapseDashes (dashify (jsTrim (jsToLowerStr (stripCombining (nfd input))))))

example : slugify "Mon Café!".data = "mon-cafe".data := by decide
example : slugify "mon-cafe".data = "mon-cafe".data := by decide
example : slugify "  --Héllo  Wörld!!  ".data = "hello-world".data := by decide
example : slugify "".data = "".data := by decide

/-! The versioned file upsert against the GitHub contents API.

The remote store is modelled by a pair of oracles: `get n` is the store's
response to the GET issued by attempt `n`, and `put n sha` its response to
the PUT issued by attempt `n` carrying the version token `sha` (`none`
when the GET saw no existing file).  The PUT body also carries the file
content, commit message and branch; those do not influence the control
flow of the function under verification, so the oracle abstracts over
them. -/

/-- Response to `GET /repos/{o}/{r}/contents/{path}`: HTTP status, the
`sha` field of the JSON body (meaningful when the status is 200), and the
response text (used in error messages). -/
structure GetResponse where
  status : Nat
  sha : Str
  text : Str
deriving DecidableEq

/-- Response to `PUT /repos/{o}/{r}/contents/{path}`: HTTP status, the
parsed JSON body returned on success (kept abstract), and the response
text (used in error messages). -/
structure PutResponse where
  status : Nat
  json : Str
  text : Str
deriving DecidableEq

/-- node-fetch `res.ok`: status in the 200–299 range. -/
def respOk (status : Nat) : Bool := decide (200 ≤ status) && decide (status ≤ 299)

/-- Outcome of one upsert call: the resolved JSON of the successful PUT,
or the message of the thrown `Error`. -/
inductive UpsertResult where
  | success (json : Str)
  | failure (msg : Str)
deriving DecidableEq

/-- Decimal rendering of an HTTP status, as interpolated into the thrown
error messages. -/
def natToStr (n : Nat) : Str := (Nat.repr n).data

/-- Message of the error thrown when a GET fails (neither 200 nor 404). -/
def getFailMsg (status : Nat) (text : Str) : Str :=
  "GitHub GET failed (".data ++ natToStr status ++ "): ".data ++ text

/-- Message of the error thrown when a PUT fails terminally. -/
def putFailMsg (status : Nat) (text : Str) : Str :=
  "GitHub upsert failed (".data ++ natToStr status ++ "): ".data ++ text

/-- The version token sent with the PUT of an attempt whose GET returned
`g`: the JSON `sha` on 200, absent otherwise (`sha` stays `undefined`). -/
def shaOf (g : GetResponse) : Option Str :=
  if g.status = 200 then some g.sha else none

/-- `upsertGithubFile`, first revision (source lines 141–184).  One GET —
any non-200 response, 404 included, just leaves `sha` undefined — then one
PUT; a non-ok PUT throws, with no retry. -/
def upsertGithubFileV1 (get : Nat → GetResponse) (put : Nat → Option Str → PutResponse) :
    UpsertResult :=
  let g := get 1
  let p := put 1 (shaOf g)
  if respOk p.status then .success p.json
  else .failure (putFailMsg p.status p.text)

/-- Body of the `for (let attempt = 1; attempt <= 5; attempt++)` loop of
the second-revision `upsertGithubFile` (source lines 765–800), with
explicit fuel.  Attempt `attempt` issues its GET (throwing on a status
that is neither 200 nor 404), then its PUT: an ok PUT returns its JSON, a
409 with `attempt < 5` backs off and retries, anything else throws. -/
def upsertAttempts (get : Nat → GetResponse) (put : Nat → Option Str → PutResponse) :
    Nat → Nat → UpsertResult
  | _, 0 => .failure "GitHub upsert failed after retries".data
  | attempt, fuel + 1 =>
    let g := get attempt
    if g.status = 200 ∨ g.status = 404 then
      let p := put attempt (shaOf g)
      if respOk p.status then .success p.json
      else if p.status = 409 ∧ attempt < 5 then upsertAttempts get put (attempt + 1) fuel
      else .failure (putFailMsg p.status p.text)
    else .failure (getFailMsg g.status g.text)

/-- `upsertGithubFile`, second revision (source lines 748–803): the retry
loop runs attempts 1 to 5; the fuel value 5 makes the recursion mirror the
loop bound (the out-of-fuel branch corresponds to the unreachable
`throw` after the loop, line 802). -/
def upsertGithubFile (get : Nat → GetResponse) (put : Nat → Option Str → PutResponse) :
    UpsertResult :=
  upsertAttempts get put 1 5

example :
    upsertGithubFile (fun _ => ⟨404, [], []⟩) (fun _ _ => ⟨201, "j".data, []⟩) =
      .success "j".data := by decide

example :
    upsertGithubFile (fun _ => ⟨200, "s".data, []⟩) (fun _ _ => ⟨409, [], "c".data⟩) =
      .failure (putFailMsg 409 "c".data) := by decide

/-! The section patcher, `/patch-section-github` (source lines 1107–1188).
The handler reads `{safeSlug}/index.html`, locates the first occurrences
of the two section markers with `String.prototype.indexOf`, rejects the
patch when either is missing or misordered, and otherwise splices the new
fragment between the markers and writes the document back through
`upsertGithubFile`. -/

/-- JS `haystack.indexOf(needle)`: position of the first occurrence, or
`none` where JS returns `-1`. -/
def listIndexOf (needle : Str) : Str → Option Nat
  | [] => if needle.isPrefixOf ([] : Str) then some 0 else none
  | c :: t =>
    if needle.isPrefixOf (c :: t) then some 0
    else (listIndexOf needle t).map (· + 1)

/-- The start marker literal for a section name (source line 1150). -/
def startMarkerOf (sectionName : Str) : Str :=
  "<!-- SECTION:".data ++ sectionName ++ ":start -->".data

/-- The end marker literal for a section name (source line 1151). -/
def endMarkerOf (sectionName : Str) : Str :=
  "<!-- SECTION:".data ++ sectionName ++ ":end -->".data

/-- Outcome of the marker-splice part of the handler: either the 400
"Section introuvable" response (no write is issued), or the new document
content passed to `upsertGithubFile`. -/
inductive PatchSectionOutcome where
  | notFound (msg : Str)
  | write (newDoc : Str)
deriving DecidableEq

/-- The marker-splice logic of `/patch-section-github` (source lines
1150–1166): locate both markers, reject when either is missing or
`endIdx <= startIdx`, otherwise build
`before + "\n" + htmlFragment + "\n" + after` where `before` is the
document up to and including the start marker and `after` the document
from the end marker on. -/
def patchSectionCore (sectionName currentHtml htmlFragment : Str) : PatchSectionOutcome :=
  let startMarker := startMarkerOf sectionName
  let endMarker := endMarkerOf sectionName
  match listIndexOf startMarker currentHtml, listIndexOf endMarker currentHtml with
  | some startIdx, some endIdx =>
    if endIdx ≤ startIdx then
      .notFound ("Section introuvable dans index.html: ".data ++ sectionName)
    else
      let before := currentHtml.take (startIdx + startMarker.length)
      let after := currentHtml.drop endIdx
      .write (before ++ '\n' :: htmlFragment ++ '\n' :: after)
  | some _, none => .notFound ("Section introuvable dans index.html: ".data ++ sectionName)
  | none, _ => .notFound ("Section introuvable dans index.html: ".data ++ sectionName)

/-- The store writes issued by the splice part of the handler: none on the
not-found path (the handler returns 400 before any PUT), and exactly one —
the patched `index.html` — otherwise (line 1169). -/
def patchSectionWrites (safeSlug sectionName currentHtml htmlFragment : Str) :
    List (Str × Str) :=
  match patchSectionCore sectionName currentHtml htmlFragment with
  | .notFound _ => []
  | .write newDoc => [(safeSlug ++ "/index.html".data, newDoc)]

/-- Replaying a list of (path, content) writes over a path-addressed
store.  A later write to a path shadows an earlier one. -/
def applyWrites (store : Str → Option Str) : List (Str × Str) → (Str → Option Str)
  | [] => store
  | (p, c) :: ws => applyWrites (fun q => if q = p then some c else store q) ws

example :
    patchSectionCore "s".data
      "x<!-- SECTION:s:start -->y<!-- SECTION:s:end -->z".data "D".data =
      .write "x<!-- SECTION:s:start -->\nD\n<!-- SECTION:s:end -->z".data := by decide

example :
    patchSectionCore "s".data "no markers here".data "D".data =
      .notFound "Section introuvable dans index.html: s".data := by decide

/-! The batch publisher, `/publish-slug-github` (source lines 933–983):
derive the slug, validate, build the ordered file list, then upsert each
file strictly sequentially (`for (const f of files) await ...`), aborting
on the first thrown error.  Each file gets its own store-oracle pair; the
`committed` output lists the files whose upsert succeeded (these writes
are in the store for good), `attempted` the paths whose upsert was
started. -/

/-- One remote-store behavior for one upsert call: the per-attempt GET and
PUT response oracles. -/
structure StoreOracle where
  get : Nat → GetResponse
  put : Nat → Option Str → PutResponse

/-- Run one upsert call against one store oracle. -/
def runUpsert (o : StoreOracle) : UpsertResult := upsertGithubFile o.get o.put

/-- JS `x || y` on an optional string: `y` when `x` is `undefined` or
empty (falsy). -/
def jsOrStr (x : Option Str) (y : Str) : Str :=
  match x with
  | some s => if s = [] then y else s
  | none => y

/-- The generated `README.txt` content (source lines 953–958). -/
def readmeFor (safeSlug : Str) (projectName : Option Str) : Str :=
  "# ".data ++ jsOrStr projectName safeSlug ++
  "\n\nPublié automatiquement sur https://votresite.be/".data ++ safeSlug ++ "/\n".data

/-- JS truthiness of `typeof x === "string" && x.trim()`: a present string
that is nonempty after trimming. -/
def presentNonBlank (x : Option Str) : Bool :=
  match x with
  | some s => decide (jsTrim s ≠ [])
  | none => false

/-- The ordered file list of one publish (source lines 950–964):
`index.html`, `README.txt`, then `styles/main.css` and `js/main.js` when
supplied non-blank. -/
def buildPublishFiles (safeSlug : Str) (projectName : Option Str) (html : Str)
    (css js : Option Str) : List (Str × Str) :=
  [(safeSlug ++ "/index.html".data, html),
   (safeSlug ++ "/README.txt".data, readmeFor safeSlug projectName)] ++
  (match css with
   | some c => if jsTrim c ≠ [] then [(safeSlug ++ "/styles/main.css".data, c)] else []
   | none => []) ++
  (match js with
   | some j => if jsTrim j ≠ [] then [(safeSlug ++ "/js/main.js".data, j)] else []
   | none => [])

/-- The sequential upsert loop (source lines 967–976).  File number `i`
(zero-based position in the list) runs against store oracle `envs (b + i)`
where `b` is the position of the first file.  Returns the committed
(path, content) pairs, the attempted paths, and the message of the first
thrown error if any. -/
def publishLoop (envs : Nat → StoreOracle) : Nat → List (Str × Str) →
    List (Str × Str) × List Str × Option Str
  | _, [] => ([], [], none)
  | b, (p, c) :: rest =>
    match runUpsert (envs b) with
    | .success _ =>
      let (comm, att, err) := publishLoop envs (b + 1) rest
      ((p, c) :: comm, p :: att, err)
    | .failure m => ([], [p], some m)

/-- The JSON responses the `/publish-slug-github` handler can send: the
success body `{ok: true, slug, publishedUrl}` (line 978) or an error body
`{ok: false, error}` with its HTTP status (lines 938–946, 981). -/
inductive PublishResponse where
  | okJson (slug publishedUrl : Str)
  | errJson (status : Nat) (error : Str)
deriving DecidableEq

/-- `https://votresite.be/{safeSlug}/`. -/
def publishedUrlOf (safeSlug : Str) : Str :=
  "https://votresite.be/".data ++ safeSlug ++ "/".data

/-- The `/publish-slug-github` handler (source lines 933–983), from the
request fields to the response, given one store oracle per file.  The
GitHub environment variables are taken as configured (their absence is a
500 orthogonal to every claim).  Returns the response together with the
committed (path, content) pairs and the attempted paths. -/
def publishSlugGithub (slug : Str) (projectName : Option Str) (html : Option Str)
    (css js : Option Str) (envs : Nat → StoreOracle) :
    PublishResponse × List (Str × Str) × List Str :=
  let safeSlug := slugify slug
  if safeSlug = [] then (.errJson 400 "slug requis".data, [], [])
  else match html with
    | none => (.errJson 400 "html requis".data, [], [])
    | some h =>
      if h = [] then (.errJson 400 "html requis".data, [], [])
      else
        let files := buildPublishFiles safeSlug projectName h css js
        match publishLoop envs 0 files with
        | (comm, att, none) => (.okJson safeSlug (publishedUrlOf safeSlug), comm, att)
        | (comm, att, some m) => (.errJson 500 m, comm, att)

/-- A store oracle that always accepts: GET sees no existing file, PUT
succeeds. -/
def happyOracle : StoreOracle :=
  ⟨fun _ => ⟨404, [], []⟩, fun _ _ => ⟨201, "j".data, []⟩⟩

/-- A store oracle whose PUT fails with a given non-409 status and body. -/
def brokenOracle (status : Nat) (body : Str) : StoreOracle :=
  ⟨fun _ => ⟨404, [], []⟩, fun _ _ => ⟨status, [], body⟩⟩

example :
    (publishSlugGithub "site".data none (some "<h1>x</h1>".data) none none
        (fun _ => happyOracle)).1 =
      .okJson "site".data "https://votresite.be/site/".data := by decide

example :
    (publishSlugGithub "site".data none (some "<h1>x</h1>".data) none none
        (fun i => if i = 1 then brokenOracle 500 "boom".data else happyOracle)).1 =
      .errJson 500 (putFailMsg 500 "boom".data) := by decide

/-! Helper lemmas about the retry loop. -/

/-- One conflicted attempt below the ceiling moves the loop to the next
attempt. -/
theorem upsertAttempts_conflict_step (get : Nat → GetResponse)
    (put : Nat → Option Str → PutResponse) (attempt fuel : Nat)
    (hg : (get attempt).status = 200 ∨ (get attempt).status = 404)
    (hp : (put attempt (shaOf (get attempt))).status = 409)
    (hlt : attempt < 5) :
    upsertAttempts get put attempt (fuel + 1) = upsertAttempts get put (attempt + 1) fuel := by
  simp only [upsertAttempts, if_pos hg, hp]
  norm_num [respOk, hlt]

/-- A conflicted PUT at the final attempt fails with the 409 upsert
message. -/
theorem upsertAttempts_conflict_last (get : Nat → GetResponse)
    (put : Nat → Option Str → PutResponse) (fuel : Nat)
    (hg : (get 5).status = 200 ∨ (get 5).status = 404)
    (hp : (put 5 (shaOf (get 5))).status = 409) :
    upsertAttempts get put 5 (fuel + 1) =
      .failure (putFailMsg 409 (put 5 (shaOf (get 5))).text) := by
  simp only [upsertAttempts, if_pos hg, hp]
  norm_num [respOk]

/-- C3: against a store whose conditional write reports a version conflict
(HTTP 409) on every attempt and whose reads answer normally, the
retry-wrapped upsert terminates after its fixed ceiling of 5 attempts and
surfaces the conflict error of the final attempt to the caller; it never
loops forever (the model is a total function, and the result is pinned to
the fifth attempt). -/
theorem upsert_conflict_retry_ceiling (get : Nat → GetResponse)
    (put : Nat → Option Str → PutResponse)
    (hget : ∀ n, (get n).status = 200 ∨ (get n).status = 404)
    (hput : ∀ n sha, (put n sha).status = 409) :
    upsertGithubFile get put =
      .failure (putFailMsg 409 (put 5 (shaOf (get 5))).text) := by
  unfold upsertGithubFile
  rw [show (5 : Nat) = 4 + 1 from rfl,
      upsertAttempts_conflict_step get put 1 4 (hget 1) (hput 1 _) (by omega),
      show (4 : Nat) = 3 + 1 from rfl,
      upsertAttempts_conflict_step get put 2 3 (hget 2) (hput 2 _) (by omega),
      show (3 : Nat) = 2 + 1 from rfl,
      upsertAttempts_conflict_step get put 3 2 (hget 3) (hput 3 _) (by omega),
      show (2 : Nat) = 1 + 1 from rfl,
      upsertAttempts_conflict_step get put 4 1 (hget 4) (hput 4 _) (by omega),
      show (1 : Nat) = 0 + 1 from rfl,
      upsertAttempts_conflict_last get put 0 (hget 5) (hput 5 _)]

/-- Closed witness for `upsert_conflict_retry_ceiling`: a concrete
always-conflicting store. -/
theorem upsert_conflict_retry_ceiling_witness :
    upsertGithubFile (fun _ => ⟨200, "s".data, []⟩) (fun _ _ => ⟨409, [], "stale".data⟩) =
      .failure (putFailMsg 409 "stale".data) :=
  upsert_conflict_retry_ceiling _ _ (fun _ => Or.inl rfl) (fun _ _ => rfl)

/-- If every attempt before `k` was a normally-read, conflicted write, the
retry loop reaches attempt `k` with `6 - k` units of fuel left. -/
theorem upsertAttempts_reach (get : Nat → GetResponse)
    (put : Nat → Option Str → PutResponse) (k : Nat) (hk1 : 1 ≤ k) (hk5 : k ≤ 5)
    (hprev : ∀ i, 1 ≤ i → i < k →
      ((get i).status = 200 ∨ (get i).status = 404) ∧
      (put i (shaOf (get i))).status = 409) :
    upsertGithubFile get put = upsertAttempts get put k (6 - k) := by
  induction k with
  | zero => omega
  | succ k ih =>
    rcases Nat.eq_or_lt_of_le hk1 with h1 | h1
    · simp [upsertGithubFile, ← h1]
    · have hk : 1 ≤ k := by omega
      have hk5' : k ≤ 5 := by omega
      have step := upsertAttempts_conflict_step get put k (6 - (k + 1))
        (hprev k hk (by omega)).1 (hprev k hk (by omega)).2 (by omega)
      have hfuel : 6 - k = 6 - (k + 1) + 1 := by omega
      rw [ih hk hk5' (fun i h1 h2 => hprev i h1 (by omega)), hfuel, step]

/-- C4: a read or write failure that is not a version conflict propagates
immediately on the attempt where it occurs, with no further retry.  If the
loop reaches attempt `k` (every earlier attempt read normally and lost the
conditional write to a 409), then: a GET whose status is neither 200 nor
404 makes the whole upsert fail with that GET's error, whatever the store
would have answered later; and a non-ok PUT whose status is not 409 makes
it fail with that PUT's error, likewise with no later interaction. -/
theorem upsert_nonconflict_error_propagates_immediately (get : Nat → GetResponse)
    (put : Nat → Option Str → PutResponse) (k : Nat) (hk1 : 1 ≤ k) (hk5 : k ≤ 5)
    (hprev : ∀ i, 1 ≤ i → i < k →
      ((get i).status = 200 ∨ (get i).status = 404) ∧
      (put i (shaOf (get i))).status = 409) :
    (¬((get k).status = 200 ∨ (get k).status = 404) →
      upsertGithubFile get put = .failure (getFailMsg (get k).status (get k).text)) ∧
    (((get k).status = 200 ∨ (get k).status = 404) →
      respOk (put k (shaOf (get k))).status = false →
      (put k (shaOf (get k))).status ≠ 409 →
      upsertGithubFile get put = .failure
        (putFailMsg (put k (shaOf (get k))).status (put k (shaOf (get k))).text)) := by
  have hreach := upsertAttempts_reach get put k hk1 hk5 hprev
  have hfuel : 6 - k = 6 - (k + 1) + 1 := by omega
  constructor
  · intro hg
    rw [hreach, hfuel]
    simp only [upsertAttempts, if_neg hg]
  · intro hg hput h409
    rw [hreach, hfuel]
    simp only [upsertAttempts, if_pos hg, hput]
    simp [h409]

/-- Closed witness for
`upsert_nonconflict_error_propagates_immediately`, at attempt 1: a store
whose GET answers 500 fails the upsert with the GET error, and a store
whose PUT answers 422 fails it with the PUT error. -/
theorem upsert_nonconflict_error_propagates_immediately_witness :
    upsertGithubFile (fun _ => ⟨500, [], "down".data⟩) (fun _ _ => ⟨201, [], []⟩) =
      .failure (getFailMsg 500 "down".data) ∧
    upsertGithubFile (fun _ => ⟨404, [], []⟩) (fun _ _ => ⟨422, [], "bad".data⟩) =
      .failure (putFailMsg 422 "bad".data) :=
  ⟨(upsert_nonconflict_error_propagates_immediately
      (fun _ => ⟨500, [], "down".data⟩) (fun _ _ => ⟨201, [], []⟩) 1 (by decide) (by decide)
      (fun i h1 h2 => absurd (Nat.lt_of_lt_of_le h2 h1) (Nat.lt_irrefl i))).1 (by decide),
   (upsert_nonconflict_error_propagates_immediately
      (fun _ => ⟨404, [], []⟩) (fun _ _ => ⟨422, [], "bad".data⟩) 1 (by decide) (by decide)
      (fun i h1 h2 => absurd (Nat.lt_of_lt_of_le h2 h1) (Nat.lt_irrefl i))).2
      (by decide) (by decide) (by decide)⟩

/-- C10: the naive first revision of `upsertGithubFile` and the
retry-wrapped second revision are observationally equivalent whenever the
first read answers 200 or 404 and the first conditional write succeeds:
both finish after that single read-then-write exchange and return the
JSON of that write. -/
theorem upsert_revisions_equivalent_on_first_success (get : Nat → GetResponse)
    (put : Nat → Option Str → PutResponse)
    (hget : (get 1).status = 200 ∨ (get 1).status = 404)
    (hput : respOk (put 1 (shaOf (get 1))).status = true) :
    upsertGithubFileV1 get put = upsertGithubFile get put ∧
    upsertGithubFile get put = .success (put 1 (shaOf (get 1))).json := by
  have h2 : upsertGithubFile get put = .success (put 1 (shaOf (get 1))).json := by
    unfold upsertGithubFile
    rw [show (5 : Nat) = 4 + 1 from rfl]
    simp only [upsertAttempts, if_pos hget, hput]
    simp
  refine ⟨?_, h2⟩
  rw [h2]
  simp [upsertGithubFileV1, hput]

/-- Closed witness for `upsert_revisions_equivalent_on_first_success`: a
store with an existing file whose first conditional write succeeds. -/
theorem upsert_revisions_equivalent_on_first_success_witness :
    upsertGithubFileV1 (fun _ => ⟨200, "s".data, []⟩) (fun _ _ => ⟨200, "new".data, []⟩) =
      upsertGithubFile (fun _ => ⟨200, "s".data, []⟩) (fun _ _ => ⟨200, "new".data, []⟩) ∧
    upsertGithubFile (fun _ => ⟨200, "s".data, []⟩) (fun _ _ => ⟨200, "new".data, []⟩) =
      .success "new".data :=
  upsert_revisions_equivalent_on_first_success _ _ (Or.inl rfl) (by decide)

/-- Generalized form of the sequential-loop failure behavior: starting the
loop at oracle position `b`, if the first `k` files upsert successfully
and file `k` fails, the loop output is the `k` committed files, the
`k + 1` attempted paths, and file `k`'s error. -/
theorem publishLoop_fail_from (envs : Nat → StoreOracle) :
    ∀ (files : List (Str × Str)) (b k : Nat) (m : Str),
    k < files.length →
    (∀ i, i < k → ∃ j, runUpsert (envs (b + i)) = .success j) →
    runUpsert (envs (b + k)) = .failure m →
    publishLoop envs b files =
      (files.take k, (files.take (k + 1)).map Prod.fst, some m) := by
  intro files
  induction files with
  | nil => intro b k m hk _ _; simp at hk
  | cons f rest ih =>
    intro b k m hk hsucc hfail
    obtain ⟨p, c⟩ := f
    match k with
    | 0 =>
      rw [Nat.add_zero] at hfail
      simp [publishLoop, hfail]
    | k + 1 =>
      obtain ⟨j, hj⟩ := hsucc 0 (Nat.succ_pos k)
      rw [Nat.add_zero] at hj
      have hrest := ih (b + 1) k m (by simpa using hk)
        (fun i hi => by
          obtain ⟨j', hj'⟩ := hsucc (i + 1) (by omega)
          exact ⟨j', by rw [show b + 1 + i = b + (i + 1) by omega]; exact hj'⟩)
        (by rw [show b + 1 + k = b + (k + 1) by omega]; exact hfail)
      simp [publishLoop, hj, hrest]

/-- Generalized form of the sequential-loop success behavior: when every
file upserts successfully the loop commits all of them, in order. -/
theorem publishLoop_all_success (envs : Nat → StoreOracle) :
    ∀ (files : List (Str × Str)) (b : Nat),
    (∀ i, i < files.length → ∃ j, runUpsert (envs (b + i)) = .success j) →
    publishLoop envs b files = (files, files.map Prod.fst, none) := by
  intro files
  induction files with
  | nil => intro b _; simp [publishLoop]
  | cons f rest ih =>
    intro b hsucc
    obtain ⟨p, c⟩ := f
    obtain ⟨j, hj⟩ := hsucc 0 (Nat.succ_pos _)
    rw [Nat.add_zero] at hj
    have hrest := ih (b + 1) (fun i hi => by
      obtain ⟨j', hj'⟩ := hsucc (i + 1) (by simpa using hi)
      exact ⟨j', by rw [show b + 1 + i = b + (i + 1) by omega]; exact hj'⟩)
    simp [publishLoop, hj, hrest]

/-- C5: within one batch publish, file upserts run strictly sequentially
in the order supplied — each one, retry cycle included, finishes before
the next begins.  If file `k` (zero-based) fails terminally after files
`0..k-1` succeeded, then exactly those earlier files are committed, in the
supplied order, and files `k+1..n-1` are never attempted: only the first
`k + 1` paths appear in the attempted list. -/
theorem publish_sequential_partial_failure (envs : Nat → StoreOracle)
    (files : List (Str × Str)) (k : Nat) (m : Str)
    (hk : k < files.length)
    (hsucc : ∀ i, i < k → ∃ j, runUpsert (envs i) = .success j)
    (hfail : runUpsert (envs k) = .failure m) :
    publishLoop envs 0 files =
      (files.take k, (files.take (k + 1)).map Prod.fst, some m) :=
  publishLoop_fail_from envs files 0 k m hk
    (fun i hi => by simpa using hsucc i hi) (by simpa using hfail)

/-- Closed witness for `publish_sequential_partial_failure`: three files,
the second of which always conflicts; the first stays committed, the
third is never attempted. -/
theorem publish_sequential_partial_failure_witness :
    publishLoop
      (fun i => if i = 1 then brokenOracle 500 "boom".data else happyOracle) 0
      [("a".data, "1".data), ("b".data, "2".data), ("c".data, "3".data)] =
      ([("a".data, "1".data)], ["a".data, "b".data], some (putFailMsg 500 "boom".data)) :=
  publish_sequential_partial_failure _ _ 1 _ (by decide)
    (fun i hi => ⟨"j".data, by interval_cases i; decide⟩) (by decide)

/-- C6, counterexample: the `/publish-slug-github` error response does not
identify the failing path or the number of preceding successes.  Two
batches — one failing on its first file `site/index.html` with nothing
committed, one failing on its second file `site/README.txt` after one
commit — produce the very same caller-visible response. -/
theorem publish_error_response_lacks_path_counterexample :
    (publishSlugGithub "site".data none (some "<h1>x</h1>".data) none none
        (fun _ => brokenOracle 500 "boom".data)).1 =
      (publishSlugGithub "site".data none (some "<h1>x</h1>".data) none none
        (fun i => if i = 0 then happyOracle else brokenOracle 500 "boom".data)).1 ∧
    (publishSlugGithub "site".data none (some "<h1>x</h1>".data) none none
        (fun _ => brokenOracle 500 "boom".data)).2.2 ≠
      (publishSlugGithub "site".data none (some "<h1>x</h1>".data) none none
        (fun i => if i = 0 then happyOracle else brokenOracle 500 "boom".data)).2.2 ∧
    (publishSlugGithub "site".data none (some "<h1>x</h1>".data) none none
        (fun _ => brokenOracle 500 "boom".data)).2.1.length ≠
      (publishSlugGithub "site".data none (some "<h1>x</h1>".data) none none
        (fun i => if i = 0 then happyOracle else brokenOracle 500 "boom".data)).2.1.length := by
  decide

/-- C6, amended: when a batch publish fails on file `k`, the caller
receives a 500 response whose error field is exactly the failing upsert's
own error message (GitHub status and response text); the failing path and
the number of previously committed files are not part of the response. -/
theorem publish_error_response_is_failing_upsert_message (slug : Str)
    (projectName : Option Str) (html : Str) (css js : Option Str)
    (envs : Nat → StoreOracle) (k : Nat) (m : Str)
    (hslug : slugify slug ≠ [])
    (hhtml : html ≠ [])
    (hk : k < (buildPublishFiles (slugify slug) projectName html css js).length)
    (hsucc : ∀ i, i < k → ∃ j, runUpsert (envs i) = .success j)
    (hfail : runUpsert (envs k) = .failure m) :
    (publishSlugGithub slug projectName (some html) css js envs).1 = .errJson 500 m := by
  have hloop := publishLoop_fail_from envs
    (buildPublishFiles (slugify slug) projectName html css js) 0 k m hk
    (fun i hi => by simpa using hsucc i hi) (by simpa using hfail)
  simp [publishSlugGithub, hslug, hhtml, hloop]

/-- Closed witness for
`publish_error_response_is_failing_upsert_message`: a two-file batch
failing on its second file reports exactly that upsert's message. -/
theorem publish_error_response_is_failing_upsert_message_witness :
    (publishSlugGithub "site".data none (some "<h1>x</h1>".data) none none
        (fun i => if i = 0 then happyOracle else brokenOracle 500 "boom".data)).1 =
      .errJson 500 (putFailMsg 500 "boom".data) :=
  publish_error_response_is_failing_upsert_message "site".data none "<h1>x</h1>".data
    none none _ 1 _ (by decide) (by decide) (by decide)
    (fun i hi => ⟨"j".data, by interval_cases i; decide⟩) (by decide)

/-- C7, counterexample: the `/publish-slug-github` success response does
not contain the count or list of written paths.  Two all-success batches
writing different path sets — two files without CSS, three files with
CSS — produce the very same caller-visible response. -/
theorem publish_success_response_lacks_paths_counterexample :
    (publishSlugGithub "site".data none (some "<h1>x</h1>".data) none none
        (fun _ => happyOracle)).1 =
      (publishSlugGithub "site".data none (some "<h1>x</h1>".data) (some "b".data) none
        (fun _ => happyOracle)).1 ∧
    (publishSlugGithub "site".data none (some "<h1>x</h1>".data) none none
        (fun _ => happyOracle)).2.1.map Prod.fst ≠
      (publishSlugGithub "site".data none (some "<h1>x</h1>".data) (some "b".data) none
        (fun _ => happyOracle)).2.1.map Prod.fst := by
  decide

/-- C7, amended: a batch publish in which every file write succeeds
answers `{ok: true, slug, publishedUrl}` — the derived slug and its public
URL — and commits exactly the built file list, in order; the count or list
of written paths is not part of the response. -/
theorem publish_success_response_slug_and_url (slug : Str)
    (projectName : Option Str) (html : Str) (css js : Option Str)
    (envs : Nat → StoreOracle)
    (hslug : slugify slug ≠ [])
    (hhtml : html ≠ [])
    (hsucc : ∀ i, i < (buildPublishFiles (slugify slug) projectName html css js).length →
      ∃ j, runUpsert (envs i) = .success j) :
    publishSlugGithub slug projectName (some html) css js envs =
      (.okJson (slugify slug) (publishedUrlOf (slugify slug)),
       buildPublishFiles (slugify slug) projectName html css js,
       (buildPublishFiles (slugify slug) projectName html css js).map Prod.fst) := by
  have hloop := publishLoop_all_success envs
    (buildPublishFiles (slugify slug) projectName html css js) 0
    (fun i hi => by simpa using hsucc i hi)
  simp [publishSlugGithub, hslug, hhtml, hloop]

/-- Closed witness for `publish_success_response_slug_and_url`: an
all-success two-file batch. -/
theorem publish_success_response_slug_and_url_witness :
    publishSlugGithub "site".data none (some "<h1>x</h1>".data) none none
        (fun _ => happyOracle) =
      (.okJson "site".data "https://votresite.be/site/".data,
       [("site/index.html".data, "<h1>x</h1>".data),
        ("site/README.txt".data, readmeFor "site".data none)],
       ["site/index.html".data, "site/README.txt".data]) := by
  have h := publish_success_response_slug_and_url "site".data none "<h1>x</h1>".data
    none none (fun _ => happyOracle) (by decide) (by decide)
    (fun i hi => ⟨"j".data, by show runUpsert happyOracle = .success "j".data; decide⟩)
  rw [h]
  decide

/-! Characterization of `listIndexOf` as the first occurrence. -/

/-- The needle occurs in the haystack at position `i`. -/
def occursAt (needle hay : Str) (i : Nat) : Prop := needle <+: hay.drop i

instance (needle hay : Str) (i : Nat) : Decidable (occursAt needle hay i) :=
  inferInstanceAs (Decidable (needle <+: hay.drop i))

/-- What `listIndexOf` finds is an occurrence, and the earliest one. -/
theorem listIndexOf_some (needle : Str) : ∀ (hay : Str) (i : Nat),
    listIndexOf needle hay = some i →
    occursAt needle hay i ∧ ∀ j, j < i → ¬ occursAt needle hay j := by
  intro hay
  induction hay with
  | nil =>
    intro i h
    simp only [listIndexOf] at h
    split at h
    · rename_i hpre
      obtain rfl : (0 : Nat) = i := Option.some_injective _ h
      exact ⟨by simpa [occursAt] using List.isPrefixOf_iff_prefix.mp hpre,
             fun j hj => absurd hj (Nat.not_lt_zero j)⟩
    · exact absurd h (by simp)
  | cons c t ih =>
    intro i h
    simp only [listIndexOf] at h
    split at h
    · rename_i hpre
      obtain rfl : (0 : Nat) = i := Option.some_injective _ h
      exact ⟨by simpa [occursAt] using List.isPrefixOf_iff_prefix.mp hpre,
             fun j hj => absurd hj (Nat.not_lt_zero j)⟩
    · rename_i hpre
      obtain ⟨i', hi', rfl⟩ := Option.map_eq_some'.mp h
      obtain ⟨hocc, hmin⟩ := ih i' hi'
      refine ⟨by simpa [occursAt, List.drop_succ_cons] using hocc, ?_⟩
      intro j hj
      match j with
      | 0 =>
        simp only [occursAt, List.drop_zero]
        exact fun hc => hpre (List.isPrefixOf_iff_prefix.mpr hc)
      | j + 1 =>
        simp only [occursAt, List.drop_succ_cons]
        exact hmin j (by omega)

/-- Every occurrence is at or after the position `listIndexOf` finds. -/
theorem listIndexOf_le_of_occursAt (needle : Str) : ∀ (hay : Str) (i : Nat),
    occursAt needle hay i →
    ∃ i0, i0 ≤ i ∧ listIndexOf needle hay = some i0 := by
  intro hay
  induction hay with
  | nil =>
    intro i h
    have : needle = [] := by
      have := h
      simp only [occursAt, List.drop_nil] at this
      exact List.prefix_nil.mp this
    exact ⟨0, Nat.zero_le i, by simp [listIndexOf, this]⟩
  | cons c t ih =>
    intro i h
    by_cases hpre : needle.isPrefixOf (c :: t)
    · exact ⟨0, Nat.zero_le i, by simp [listIndexOf, hpre]⟩
    · match i with
      | 0 =>
        exact absurd (List.isPrefixOf_iff_prefix.mpr (by simpa [occursAt] using h)) hpre
      | i + 1 =>
        obtain ⟨i0, hle, hidx⟩ := ih i (by simpa [occursAt, List.drop_succ_cons] using h)
        exact ⟨i0 + 1, by omega, by simp [listIndexOf, hpre, hidx]⟩

/-- `indexOf` answers `-1` exactly when the needle occurs nowhere. -/
theorem listIndexOf_eq_none_iff (needle hay : Str) :
    listIndexOf needle hay = none ↔ ∀ i, ¬ occursAt needle hay i := by
  constructor
  · intro h i hocc
    obtain ⟨i0, _, hidx⟩ := listIndexOf_le_of_occursAt needle hay i hocc
    rw [h] at hidx
    exact absurd hidx (by simp)
  · intro h
    match hidx : listIndexOf needle hay with
    | none => rfl
    | some i => exact absurd (listIndexOf_some needle hay i hidx).1 (h i)

/-- When the needle occurs at exactly one position, `indexOf` answers that
position. -/
theorem listIndexOf_of_unique_occursAt (needle hay : Str) (i : Nat)
    (hocc : occursAt needle hay i)
    (huniq : ∀ j, occursAt needle hay j → j = i) :
    listIndexOf needle hay = some i := by
  obtain ⟨i0, _, hidx⟩ := listIndexOf_le_of_occursAt needle hay i hocc
  rw [hidx, huniq i0 (listIndexOf_some needle hay i0 hidx).1]

/-- The start marker is never the empty string. -/
theorem startMarkerOf_ne_nil (name : Str) : startMarkerOf name ≠ [] := by
  simp [startMarkerOf]

/-- C1, counterexample: patching section `s` of
`x<!-- SECTION:s:start -->y<!-- SECTION:s:end -->z` with fragment `D`
does not produce `x<!-- SECTION:s:start -->D<!-- SECTION:s:end -->z` as
the claim states: the handler wraps the fragment in two newline bytes. -/
theorem patch_section_exact_splice_counterexample :
    patchSectionCore "s".data
        "x<!-- SECTION:s:start -->y<!-- SECTION:s:end -->z".data "D".data =
      .write "x<!-- SECTION:s:start -->\nD\n<!-- SECTION:s:end -->z".data ∧
    patchSectionCore "s".data
        "x<!-- SECTION:s:start -->y<!-- SECTION:s:end -->z".data "D".data ≠
      .write "x<!-- SECTION:s:start -->D<!-- SECTION:s:end -->z".data := by
  decide

/-- C1, amended: for a document `A ++ start ++ B ++ end ++ C` in which each
marker occurs exactly once (hence in that order), patching section `name`
with fragment `D` produces and writes back exactly
`A ++ start ++ "\n" ++ D ++ "\n" ++ end ++ C`: the fragment, wrapped in
one newline on each side, replaces the marker interior, and no byte
outside the marker interior is altered. -/
theorem patch_section_preserves_surroundings (name A B C D : Str)
    (hsm : ∀ j, occursAt (startMarkerOf name)
      (A ++ startMarkerOf name ++ B ++ endMarkerOf name ++ C) j → j = A.length)
    (hem : ∀ j, occursAt (endMarkerOf name)
      (A ++ startMarkerOf name ++ B ++ endMarkerOf name ++ C) j →
      j = A.length + (startMarkerOf name).length + B.length) :
    patchSectionCore name (A ++ startMarkerOf name ++ B ++ endMarkerOf name ++ C) D =
      .write (A ++ startMarkerOf name ++ '\n' :: D ++ '\n' :: (endMarkerOf name ++ C)) := by
  have hsmpos : 0 < (startMarkerOf name).length :=
    List.length_pos.mpr (startMarkerOf_ne_nil name)
  have hassoc : A ++ startMarkerOf name ++ B ++ endMarkerOf name ++ C =
      A ++ (startMarkerOf name ++ B ++ endMarkerOf name ++ C) := by
    simp [List.append_assoc]
  have hdrop_s : (A ++ startMarkerOf name ++ B ++ endMarkerOf name ++ C).drop A.length =
      startMarkerOf name ++ B ++ endMarkerOf name ++ C := by
    rw [hassoc]
    exact List.drop_left A _
  have hocc_s : occursAt (startMarkerOf name)
      (A ++ startMarkerOf name ++ B ++ endMarkerOf name ++ C) A.length := by
    rw [occursAt, hdrop_s]
    simp [List.append_assoc]
  have hidx_s : listIndexOf (startMarkerOf name)
      (A ++ startMarkerOf name ++ B ++ endMarkerOf name ++ C) = some A.length :=
    listIndexOf_of_unique_occursAt _ _ _ hocc_s hsm
  have hsplit : A ++ startMarkerOf name ++ B ++ endMarkerOf name ++ C =
      (A ++ startMarkerOf name ++ B) ++ (endMarkerOf name ++ C) := by
    simp [List.append_assoc]
  have hlen3 : (A ++ startMarkerOf name ++ B).length =
      A.length + (startMarkerOf name).length + B.length := by
    simp [List.length_append, Nat.add_assoc]
  have hdrop_e : (A ++ startMarkerOf name ++ B ++ endMarkerOf name ++ C).drop
      (A.length + (startMarkerOf name).length + B.length) = endMarkerOf name ++ C := by
    rw [hsplit]
    exact List.drop_left' hlen3
  have hocc_e : occursAt (endMarkerOf name)
      (A ++ startMarkerOf name ++ B ++ endMarkerOf name ++ C)
      (A.length + (startMarkerOf name).length + B.length) := by
    rw [occursAt, hdrop_e]
    exact (endMarkerOf name).prefix_append _
  have hidx_e : listIndexOf (endMarkerOf name)
      (A ++ startMarkerOf name ++ B ++ endMarkerOf name ++ C) =
      some (A.length + (startMarkerOf name).length + B.length) :=
    listIndexOf_of_unique_occursAt _ _ _ hocc_e hem
  have htake : (A ++ startMarkerOf name ++ B ++ endMarkerOf name ++ C).take
      (A.length + (startMarkerOf name).length) = A ++ startMarkerOf name := by
    have hsplit2 : A ++ startMarkerOf name ++ B ++ endMarkerOf name ++ C =
        (A ++ startMarkerOf name) ++ (B ++ endMarkerOf name ++ C) := by
      simp [List.append_assoc]
    rw [hsplit2]
    exact List.take_left' (by simp [List.length_append])
  simp only [patchSectionCore, hidx_s, hidx_e]
  rw [if_neg (by omega)]
  rw [htake, hdrop_e]


/-- A nonempty needle cannot occur past the end of the haystack, so a
uniqueness property checked up to the haystack length holds outright. -/
theorem occursAt_unique_of_bounded (needle hay : Str) (i : Nat)
    (hne : needle ≠ [])
    (hchk : ∀ j, j ≤ hay.length → occursAt needle hay j → j = i) :
    ∀ j, occursAt needle hay j → j = i := by
  intro j h
  by_cases hj : j ≤ hay.length
  · exact hchk j hj h
  · exfalso
    have hlen := h.length_le
    simp only [List.length_drop] at hlen
    have hnl : 0 < needle.length := List.length_pos.mpr hne
    omega

/-- Closed witness for `patch_section_preserves_surroundings`: the
document `x<!-- SECTION:s:start -->y<!-- SECTION:s:end -->z`, each marker
occurring exactly once, patched with `D`. -/
theorem patch_section_preserves_surroundings_witness :
    patchSectionCore "s".data
        ("x".data ++ startMarkerOf "s".data ++ "y".data ++ endMarkerOf "s".data ++ "z".data)
        "D".data =
      .write ("x".data ++ startMarkerOf "s".data ++ '\n' :: "D".data ++
        '\n' :: (endMarkerOf "s".data ++ "z".data)) :=
  patch_section_preserves_surroundings "s".data "x".data "y".data "z".data "D".data
    (occursAt_unique_of_bounded _ _ _ (by decide) (by decide))
    (occursAt_unique_of_bounded _ _ _ (by decide) (by decide))

/-- C2: when the start marker is absent from the document, or the end
marker is absent, or the position located for the end marker does not
strictly follow the position located for the start marker, the section
patch fails with the section-not-found error and issues no write: the
stored document, whatever the store holds, is unchanged. -/
theorem patch_section_missing_markers_no_write (name doc frag : Str)
    (h : (∀ i, ¬ occursAt (startMarkerOf name) doc i) ∨
         (∀ i, ¬ occursAt (endMarkerOf name) doc i) ∨
         (∀ s e, listIndexOf (startMarkerOf name) doc = some s →
                 listIndexOf (endMarkerOf name) doc = some e → e ≤ s)) :
    patchSectionCore name doc frag =
      .notFound ("Section introuvable dans index.html: ".data ++ name) ∧
    ∀ (safeSlug : Str) (store : Str → Option Str),
      applyWrites store (patchSectionWrites safeSlug name doc frag) = store := by
  have hcore : patchSectionCore name doc frag =
      .notFound ("Section introuvable dans index.html: ".data ++ name) := by
    match hs : listIndexOf (startMarkerOf name) doc with
    | none => simp [patchSectionCore, hs]
    | some s =>
      match he : listIndexOf (endMarkerOf name) doc with
      | none => simp [patchSectionCore, hs, he]
      | some e =>
        have hocc_s := (listIndexOf_some _ doc s hs).1
        have hocc_e := (listIndexOf_some _ doc e he).1
        have hle : e ≤ s := by
          rcases h with h | h | h
          · exact absurd hocc_s (h s)
          · exact absurd hocc_e (h e)
          · exact h s e hs he
        simp [patchSectionCore, hs, he, hle]
  exact ⟨hcore, fun safeSlug store => by simp [patchSectionWrites, hcore, applyWrites]⟩

/-- Closed witness for `patch_section_missing_markers_no_write`: a
document with no markers at all is rejected and no write happens. -/
theorem patch_section_missing_markers_no_write_witness :
    patchSectionCore "s".data "hello world".data "D".data =
      .notFound ("Section introuvable dans index.html: ".data ++ "s".data) ∧
    ∀ (safeSlug : Str) (store : Str → Option Str),
      applyWrites store (patchSectionWrites safeSlug "s".data "hello world".data "D".data) =
        store :=
  patch_section_missing_markers_no_write "s".data "hello world".data "D".data
    (Or.inl ((listIndexOf_eq_none_iff _ _).mp (by decide)))

/-! Well-formedness and idempotence of slugify. -/

/-- Two adjacent characters are not both dashes. -/
def noTwoDashes (a b : Char) : Prop := ¬(a = '-' ∧ b = '-')

/-- The code points a slug character can take. -/
theorem slugChar_toNat (c : Char) (h : isSlugAlnum c = true ∨ c = '-') :
    c.toNat = 45 ∨ (48 ≤ c.toNat ∧ c.toNat ≤ 57) ∨ (97 ≤ c.toNat ∧ c.toNat ≤ 122) := by
  rcases h with h | rfl
  · simp only [isSlugAlnum, Bool.or_eq_true, Bool.and_eq_true, decide_eq_true_eq] at h
    tauto
  · left; rfl

/-- An alphanumeric slug character is not a dash. -/
theorem isSlugAlnum_ne_dash (c : Char) (h : isSlugAlnum c = true) : c ≠ '-' := by
  intro heq
  subst heq
  simp [isSlugAlnum] at h

/-- NFD is the identity on strings of low code points. -/
theorem nfd_id_of (l : Str) (h : ∀ c ∈ l, c.toNat < 0xC0) : nfd l = l := by
  induction l with
  | nil => rfl
  | cons c t ih =>
    have hc : decompChar c = [c] := by
      unfold decompChar
      rw [if_pos (h c (List.mem_cons_self c t))]
    have hstep : nfd (c :: t) = decompChar c ++ nfd t := rfl
    rw [hstep, hc, ih (fun d hd => h d (List.mem_cons_of_mem c hd))]
    rfl

/-- Combining-mark removal is the identity when no mark is present. -/
theorem stripCombining_id_of (l : Str) (h : ∀ c ∈ l, isCombining c = false) :
    stripCombining l = l :=
  List.filter_eq_self.mpr (fun c hc => by simp [h c hc])

/-- Mapping a function that fixes every element is the identity. -/
theorem map_id_of (l : Str) (f : Char → Char) (h : ∀ c ∈ l, f c = c) : l.map f = l :=
  (List.map_congr_left h).trans l.map_id

/-- `dropWhile` is the identity when no element satisfies the predicate. -/
theorem dropWhile_id_of (p : Char → Bool) (l : Str) (h : ∀ c ∈ l, p c = false) :
    l.dropWhile p = l := by
  cases l with
  | nil => rfl
  | cons c t => simp [List.dropWhile_cons, h c (List.mem_cons_self c t)]

/-- `trim` is the identity on whitespace-free strings. -/
theorem jsTrim_id_of (l : Str) (h : ∀ c ∈ l, isJsWs c = false) : jsTrim l = l := by
  unfold jsTrim
  rw [dropWhile_id_of _ _ h,
      dropWhile_id_of _ _ (fun c hc => h c (List.mem_reverse.mp hc)),
      List.reverse_reverse]

/-- Every character `dashify` emits is a slug character. -/
theorem dashifyGo_chars : ∀ (l : Str) (flag : Bool) (c : Char),
    c ∈ dashifyGo flag l → isSlugAlnum c = true ∨ c = '-' := by
  intro l
  induction l with
  | nil => intro flag c hc; simp [dashifyGo] at hc
  | cons a t ih =>
    intro flag c hc
    by_cases ha : isSlugAlnum a
    · rw [dashifyGo, if_pos ha] at hc
      rcases List.mem_cons.mp hc with rfl | hc
      · exact Or.inl ha
      · exact ih false c hc
    · rw [dashifyGo, if_neg ha] at hc
      cases flag with
      | true => exact ih true c (by simpa using hc)
      | false =>
        rcases List.mem_cons.mp (by simpa using hc) with rfl | hc'
        · exact Or.inr rfl
        · exact ih true c hc'

/-- `dashify` never emits two adjacent dashes, and started inside a run it
cannot emit a leading dash. -/
theorem dashifyGo_chain : ∀ (l : Str) (flag : Bool),
    List.Chain' noTwoDashes (dashifyGo flag l) ∧
    (flag = true → (dashifyGo flag l).head? ≠ some '-') := by
  intro l
  induction l with
  | nil => intro flag; exact ⟨List.chain'_nil, by simp [dashifyGo]⟩
  | cons a t ih =>
    intro flag
    by_cases ha : isSlugAlnum a
    · rw [dashifyGo, if_pos ha]
      refine ⟨List.chain'_cons'.mpr ⟨?_, (ih false).1⟩, ?_⟩
      · intro b _ hab
        exact isSlugAlnum_ne_dash a ha hab.1
      · intro _
        simp only [List.head?_cons, ne_eq, Option.some.injEq]
        exact isSlugAlnum_ne_dash a ha
    · rw [dashifyGo, if_neg ha]
      cases flag with
      | true => simpa using ih true
      | false =>
        simp only [if_neg, Bool.false_eq_true]
        refine ⟨List.chain'_cons'.mpr ⟨?_, (ih true).1⟩, by simp⟩
        intro b hb hab
        rw [Option.mem_def, hab.2] at hb
        exact (ih true).2 rfl hb

/-- `dashify` fixes a string of slug characters with no adjacent dashes,
provided a leading dash is not swallowed by a pending run. -/
theorem dashifyGo_id : ∀ (l : Str) (flag : Bool),
    (∀ c ∈ l, isSlugAlnum c = true ∨ c = '-') →
    List.Chain' noTwoDashes l →
    (flag = true → l.head? ≠ some '-') →
    dashifyGo flag l = l := by
  intro l
  induction l with
  | nil => intro flag _ _ _; rfl
  | cons c t ih =>
    intro flag hchars hchain hflag
    by_cases hc : isSlugAlnum c
    · rw [dashifyGo, if_pos hc]
      rw [ih false (fun d hd => hchars d (List.mem_cons_of_mem c hd)) hchain.tail
        (by simp)]
    · have hdash : c = '-' := (hchars c (List.mem_cons_self c t)).resolve_left hc
      subst hdash
      cases flag with
      | true => exact absurd rfl (hflag rfl)
      | false =>
        rw [dashifyGo, if_neg hc]
        simp only [Bool.false_eq_true, if_false]
        rw [ih true (fun d hd => hchars d (List.mem_cons_of_mem _ hd)) hchain.tail ?_]
        intro _
        cases t with
        | nil => simp
        | cons d t' =>
          have hrel : noTwoDashes '-' d := (List.chain'_cons.mp hchain).1
          simp only [List.head?_cons, ne_eq, Option.some.injEq]
          exact fun hd => hrel ⟨rfl, hd⟩

/-- The dash-collapsing step fixes a string with no adjacent dashes,
provided a leading dash is not swallowed by a pending run. -/
theorem collapseDashesGo_id : ∀ (l : Str) (flag : Bool),
    List.Chain' noTwoDashes l →
    (flag = true → l.head? ≠ some '-') →
    collapseDashesGo flag l = l := by
  intro l
  induction l with
  | nil => intro flag _ _; rfl
  | cons c t ih =>
    intro flag hchain hflag
    by_cases hc : c = '-'
    · subst hc
      cases flag with
      | true => exact absurd rfl (hflag rfl)
      | false =>
        rw [collapseDashesGo, if_pos rfl]
        simp only [Bool.false_eq_true, if_false]
        rw [ih true hchain.tail ?_]
        intro _
        cases t with
        | nil => simp
        | cons d t' =>
          have hrel : noTwoDashes '-' d := (List.chain'_cons.mp hchain).1
          simp only [List.head?_cons, ne_eq, Option.some.injEq]
          exact fun hd => hrel ⟨rfl, hd⟩
    · rw [collapseDashesGo, if_neg hc]
      rw [ih false hchain.tail (by simp)]

/-- Removing one leading dash keeps membership. -/
theorem dropLeadDash_subset (l : Str) : ∀ c ∈ dropLeadDash l, c ∈ l := by
  cases l with
  | nil => simp [dropLeadDash]
  | cons a t =>
    intro c hc
    rw [dropLeadDash] at hc
    by_cases ha : a = '-'
    · rw [if_pos ha] at hc
      exact List.mem_cons_of_mem a hc
    · rwa [if_neg ha] at hc

/-- Removing one leading dash preserves the no-adjacent-dashes chain. -/
theorem dropLeadDash_chain (l : Str) (h : List.Chain' noTwoDashes l) :
    List.Chain' noTwoDashes (dropLeadDash l) := by
  cases l with
  | nil => exact h
  | cons a t =>
    rw [dropLeadDash]
    by_cases ha : a = '-'
    · rw [if_pos ha]
      exact h.tail
    · rwa [if_neg ha]

/-- After removing one leading dash from a no-adjacent-dashes string, the
head is not a dash. -/
theorem dropLeadDash_head (l : Str) (h : List.Chain' noTwoDashes l) :
    (dropLeadDash l).head? ≠ some '-' := by
  cases l with
  | nil => simp [dropLeadDash]
  | cons a t =>
    rw [dropLeadDash]
    by_cases ha : a = '-'
    · rw [if_pos ha]
      subst ha
      cases t with
      | nil => simp
      | cons d t' =>
        have hrel : noTwoDashes '-' d := (List.chain'_cons.mp h).1
        simp only [List.head?_cons, ne_eq, Option.some.injEq]
        exact fun hd => hrel ⟨rfl, hd⟩
    · rw [if_neg ha]
      simpa using ha

/-- When the head is not a dash, nothing is removed. -/
theorem dropLeadDash_id (l : Str) (h : l.head? ≠ some '-') : dropLeadDash l = l := by
  cases l with
  | nil => rfl
  | cons a t =>
    rw [dropLeadDash, if_neg (by simpa using h)]

/-- Removing one leading dash cannot create a trailing dash. -/
theorem dropLeadDash_getLast (l : Str) (h : l.getLast? ≠ some '-') :
    (dropLeadDash l).getLast? ≠ some '-' := by
  cases l with
  | nil => simp [dropLeadDash]
  | cons a t =>
    rw [dropLeadDash]
    by_cases ha : a = '-'
    · rw [if_pos ha]
      cases t with
      | nil => simp
      | cons d t' => rwa [List.getLast?_cons_cons] at h
    · rwa [if_neg ha]

/-- The no-adjacent-dashes chain is symmetric under reversal. -/
theorem chain_noTwoDashes_reverse (l : Str) :
    List.Chain' noTwoDashes l.reverse ↔ List.Chain' noTwoDashes l := by
  rw [List.chain'_reverse]
  constructor
  · exact fun h => h.imp (fun a b hab ⟨h1, h2⟩ => hab ⟨h2, h1⟩)
  · exact fun h => h.imp (fun a b hab ⟨h1, h2⟩ => hab ⟨h2, h1⟩)

/-- Stripping the edge dashes of a no-adjacent-dashes slug-character
string yields a well-formed slug: slug characters only, no adjacent
dashes, and no dash at either end. -/
theorem stripEdgeDash_wf (d : Str)
    (hchars : ∀ c ∈ d, isSlugAlnum c = true ∨ c = '-')
    (hchain : List.Chain' noTwoDashes d) :
    (∀ c ∈ stripEdgeDash d, isSlugAlnum c = true ∨ c = '-') ∧
    List.Chain' noTwoDashes (stripEdgeDash d) ∧
    (stripEdgeDash d).head? ≠ some '-' ∧
    (stripEdgeDash d).getLast? ≠ some '-' := by
  have hE : stripEdgeDash d = (dropLeadDash (dropLeadDash d).reverse).reverse := rfl
  have hchain1 : List.Chain' noTwoDashes (dropLeadDash d) := dropLeadDash_chain d hchain
  have hchainm : List.Chain' noTwoDashes (dropLeadDash d).reverse :=
    (chain_noTwoDashes_reverse _).mpr hchain1
  have hchain2 : List.Chain' noTwoDashes (dropLeadDash (dropLeadDash d).reverse) :=
    dropLeadDash_chain _ hchainm
  refine ⟨?_, ?_, ?_, ?_⟩
  · intro c hc
    rw [hE, List.mem_reverse] at hc
    have hc2 := dropLeadDash_subset _ c hc
    rw [List.mem_reverse] at hc2
    exact hchars c (dropLeadDash_subset _ c hc2)
  · rw [hE]
    exact (chain_noTwoDashes_reverse _).mpr hchain2
  · rw [hE, List.head?_reverse]
    apply dropLeadDash_getLast
    rw [List.getLast?_reverse]
    exact dropLeadDash_head d hchain
  · rw [hE, List.getLast?_reverse]
    exact dropLeadDash_head _ hchainm

/-- Every slugify output is a well-formed slug: only lowercase ASCII
letters, digits and dashes, never two dashes in a row, and no dash at
either end. -/
theorem slugify_wf (s : Str) :
    (∀ c ∈ slugify s, isSlugAlnum c = true ∨ c = '-') ∧
    List.Chain' noTwoDashes (slugify s) ∧
    (slugify s).head? ≠ some '-' ∧
    (slugify s).getLast? ≠ some '-' := by
  have hchars : ∀ c ∈ dashify (jsTrim (jsToLowerStr (stripCombining (nfd s)))),
      isSlugAlnum c = true ∨ c = '-' :=
    fun c hc => dashifyGo_chars _ false c hc
  have hchain : List.Chain' noTwoDashes
      (dashify (jsTrim (jsToLowerStr (stripCombining (nfd s))))) :=
    (dashifyGo_chain _ false).1
  have hcollapse : collapseDashes (dashify (jsTrim (jsToLowerStr (stripCombining (nfd s))))) =
      dashify (jsTrim (jsToLowerStr (stripCombining (nfd s)))) :=
    collapseDashesGo_id _ false hchain (by simp)
  have hslug : slugify s =
      stripEdgeDash (dashify (jsTrim (jsToLowerStr (stripCombining (nfd s))))) := by
    rw [slugify, hcollapse]
  rw [hslug]
  exact stripEdgeDash_wf _ hchars hchain

/-- C8: slug normalization lowercases and strips accents, collapses every
run of non-alphanumeric characters to a single dash, and leaves no
leading or trailing dash: every output consists only of `a-z`, `0-9` and
`-`, never holds two adjacent dashes, and neither starts nor ends with a
dash.  In particular the inputs `Mon Café!` and `mon-cafe` both normalize
to `mon-cafe`, so they address the same publish target. -/
theorem slugify_normalizes :
    slugify "Mon Café!".data = "mon-cafe".data ∧
    slugify "mon-cafe".data = "mon-cafe".data ∧
    ∀ s : Str,
      (∀ c ∈ slugify s, isSlugAlnum c = true ∨ c = '-') ∧
      List.Chain' noTwoDashes (slugify s) ∧
      (slugify s).head? ≠ some '-' ∧
      (slugify s).getLast? ≠ some '-' :=
  ⟨by decide, by decide, slugify_wf⟩

/-- C9: slug normalization is idempotent — normalizing an
already-normalized slug returns it unchanged, so a normalized slug passes
through every endpoint's normalization as the same publish target. -/
theorem slugify_idempotent (s : Str) : slugify (slugify s) = slugify s := by
  obtain ⟨hchars, hchain, hhead, hlast⟩ := slugify_wf s
  have hbounds : ∀ c ∈ slugify s,
      c.toNat = 45 ∨ (48 ≤ c.toNat ∧ c.toNat ≤ 57) ∨ (97 ≤ c.toNat ∧ c.toNat ≤ 122) :=
    fun c hc => slugChar_toNat c (hchars c hc)
  have h1 : nfd (slugify s) = slugify s :=
    nfd_id_of _ (fun c hc => by rcases hbounds c hc with h | h | h <;> omega)
  have h2 : stripCombining (slugify s) = slugify s :=
    stripCombining_id_of _ (fun c hc => by
      rcases hbounds c hc with h | h | h <;> simp [isCombining] <;> omega)
  have h3 : jsToLowerStr (slugify s) = slugify s :=
    map_id_of _ _ (fun c hc => by
      rcases hbounds c hc with h | h | h <;> simp [jsToLower] <;> omega)
  have h4 : jsTrim (slugify s) = slugify s :=
    jsTrim_id_of _ (fun c hc => by
      rcases hbounds c hc with h | h | h <;> simp [isJsWs] <;> omega)
  have h5 : dashify (slugify s) = slugify s :=
    dashifyGo_id _ false hchars hchain (by simp)
  have h6 : collapseDashes (slugify s) = slugify s :=
    collapseDashesGo_id _ false hchain (by simp)
  have h7 : stripEdgeDash (slugify s) = slugify s := by
    rw [stripEdgeDash]
    rw [dropLeadDash_id _ hhead]
    rw [dropLeadDash_id _ (by rw [List.head?_reverse]; exact hlast)]
    exact List.reverse_reverse _
  calc slugify (slugify s)
      = stripEdgeDash (collapseDashes (dashify (jsTrim (jsToLowerStr
          (stripCombining (nfd (slugify s))))))) := rfl
    _ = slugify s := by rw [h1, h2, h3, h4, h5, h6, h7]
